import Mathlib

/-!
Verification of the schema-ide repository: the Policy Gate
(`PolicyEngine` of `src/unnamed/part_004`) and the Pipeline Runner
(`PipelineEngine` of `src/src/engine/PipelineEngine.js`), shallowly
embedded in Lean 4 and checked against the natural-language
specification's claims.
-/

namespace SchemaIde

/-! ## Glob matching (`PolicyEngine.matchGlob`)

The source converts a glob pattern to a JavaScript regular expression:
dots are escaped, `**` (pairs, left to right) becomes `.*`, a remaining
single `*` becomes `[^/]*`, `?` becomes `.`, and the regex is anchored
with `^...$`.  We embed the compiled regex as a token list and give it
the JS regex semantics: `.` matches any character except a line
terminator, `[^/]` matches any character except `/`.
-/

/-- JS regex `.` excludes line terminators (LF, CR, U+2028, U+2029). -/
def isLineTerm (c : Char) : Bool :=
  c == '\n' || c == '\r' || c.toNat == 0x2028 || c.toNat == 0x2029

/-- Tokens of the regex that `matchGlob` compiles its pattern into. -/
inductive GTok where
  /-- a literal character (escaped dot, slash, or any other character) -/
  | lit (c : Char)
  /-- `[^/]*`, produced from a single `*` -/
  | starSeg
  /-- `.*`, produced from `**` -/
  | starAny
  /-- `.`, produced from `?` -/
  | anyChar
deriving DecidableEq

/-- Tokenize a glob pattern exactly as the source's chain of string
replacements does: `**` pairs are taken left to right (the global
regex replace), then single `*`, then `?`; every other character is a
literal of the compiled regex. -/
def globTokens : List Char → List GTok
  | [] => []
  | '*' :: '*' :: rest => .starAny :: globTokens rest
  | '*' :: rest => .starSeg :: globTokens rest
  | '?' :: rest => .anyChar :: globTokens rest
  | c :: rest => .lit c :: globTokens rest

/-- Anchored matching of a token list against a character list, with JS
regex semantics.  The star cases use the language-theoretic reading of
`[^/]*`/`.*`: some split of the remainder whose first part consists of
permitted characters. -/
def rmatch : List GTok → List Char → Bool
  | [], s => s.isEmpty
  | .lit _ :: _, [] => false
  | .lit c :: ts, x :: xs => x == c && rmatch ts xs
  | .anyChar :: _, [] => false
  | .anyChar :: ts, x :: xs => !isLineTerm x && rmatch ts xs
  | .starSeg :: ts, s =>
      (List.range (s.length + 1)).any fun i =>
        (s.take i).all (fun c => c != '/') && rmatch ts (s.drop i)
  | .starAny :: ts, s =>
      (List.range (s.length + 1)).any fun i =>
        (s.take i).all (fun c => !isLineTerm c) && rmatch ts (s.drop i)

/-- `PolicyEngine.matchGlob(str, pattern)`. -/
def matchGlob (str pattern : String) : Bool :=
  rmatch (globTokens pattern.toList) str.toList

/-! ## Policy data model (`PolicyRule`, `PolicyConfig` of the contracts file) -/

/-- `PolicyRule.appliesTo`. -/
inductive Scope where
  | pipeline
  | step
  | action
  | agent
deriving DecidableEq

/-- `PolicyRule.effect`. -/
inductive Effect where
  | allow
  | deny
deriving DecidableEq

/-- `PolicyRule.target`: a single name or an array of names. -/
inductive Target where
  | one (s : String)
  | many (ss : List String)
deriving DecidableEq

/-- The test `r.target === x || (Array.isArray(r.target) && r.target.includes(x))`
used by all three check methods. -/
def Target.matchesName : Target → String → Bool
  | .one s, x => s == x
  | .many ss, x => ss.contains x

/-- `PolicyRule.conditions.timeRestrictions`. -/
structure TimeRestrictions where
  startHour : Option Nat
  endHour : Option Nat
  daysOfWeek : Option (List Nat)
deriving DecidableEq

/-- `PolicyRule.conditions`; absent fields are `none`. -/
structure Conditions where
  allowedFiles : Option (List String) := none
  deniedFiles : Option (List String) := none
  allowedCommands : Option (List String) := none
  deniedCommands : Option (List String) := none
  requiresApproval : Option Bool := none
  timeRestrictions : Option TimeRestrictions := none
deriving DecidableEq

/-- `PolicyRule`. -/
structure PolicyRule where
  id : String
  appliesTo : Scope
  target : Target
  effect : Effect
  conditions : Option Conditions := none
deriving DecidableEq

/-- `rule.conditions?.allowedFiles` (optional chaining). -/
def condAllowedFiles (r : PolicyRule) : Option (List String) :=
  r.conditions.bind (·.allowedFiles)

/-- `rule.conditions?.deniedFiles`. -/
def condDeniedFiles (r : PolicyRule) : Option (List String) :=
  r.conditions.bind (·.deniedFiles)

/-- `rule.conditions?.allowedCommands`. -/
def condAllowedCommands (r : PolicyRule) : Option (List String) :=
  r.conditions.bind (·.allowedCommands)

/-- `rule.conditions?.deniedCommands`. -/
def condDeniedCommands (r : PolicyRule) : Option (List String) :=
  r.conditions.bind (·.deniedCommands)

/-- `rule.conditions?.requiresApproval`. -/
def condRequiresApproval (r : PolicyRule) : Option Bool :=
  r.conditions.bind (·.requiresApproval)

/-- `rule.conditions?.timeRestrictions`. -/
def condTimeRestrictions (r : PolicyRule) : Option TimeRestrictions :=
  r.conditions.bind (·.timeRestrictions)

/-- `PolicyConfig`. -/
structure PolicyConfig where
  version : String
  defaultEffect : Effect
  defaultRequiresApproval : Bool
  rules : List PolicyRule
deriving DecidableEq

/-- The `{allowed, reason?, requiresApproval?}` objects returned by the
check methods; fields the source leaves out of a branch are `none`. -/
structure PolicyDecision where
  allowed : Bool
  reason : Option String := none
  requiresApproval : Option Bool := none
deriving DecidableEq

/-- The values `checkAction` reads from `new Date()`: `getHours()` and
`getDay()`, passed explicitly in the embedding. -/
structure Clock where
  hour : Nat
  day : Nat
deriving DecidableEq

/-- A `PipelineAction` as far as the policy engine inspects it:
`action.type`, `action.targets` (possibly absent), and
`action.payload?.command` (possibly absent). -/
structure PAction where
  type : String
  targets : Option (List String) := none
  command : Option String := none
deriving DecidableEq

/-! ## Policy checks (`checkPipeline`, `checkStep`, `checkAction`) -/

/-- Reason string of the `checkPipeline` deny branch. -/
def pipelineDenyReason (pid rid : String) : String :=
  "Pipeline " ++ pid ++ " is denied by policy rule: " ++ rid

/-- `PolicyEngine.checkPipeline`: finds the first rule with
`appliesTo === 'pipeline'` matching the pipeline id; denies only when
that rule's effect is `deny`. -/
def checkPipeline (cfg : PolicyConfig) (pid : String) : PolicyDecision :=
  match cfg.rules.find? (fun r =>
      decide (r.appliesTo = .pipeline) && r.target.matchesName pid) with
  | some r =>
      if r.effect = .deny then
        { allowed := false, reason := some (pipelineDenyReason pid r.id) }
      else
        { allowed := true }
  | none => { allowed := true }

/-- Reason string of the `checkStep` deny branch. -/
def agentDenyReason (agentName rid : String) : String :=
  "Agent " ++ agentName ++ " is denied by policy rule: " ++ rid

/-- `PolicyEngine.checkStep`: finds the first rule with
`appliesTo === 'agent'` matching the step's agent; denies only when that
rule's effect is `deny`. -/
def checkStep (cfg : PolicyConfig) (agentName : String) : PolicyDecision :=
  match cfg.rules.find? (fun r =>
      decide (r.appliesTo = .agent) && r.target.matchesName agentName) with
  | some r =>
      if r.effect = .deny then
        { allowed := false, reason := some (agentDenyReason agentName r.id) }
      else
        { allowed := true }
  | none => { allowed := true }

/-- The rules `checkAction` iterates: `appliesTo === 'action'` with the
target matching the action type, filtered in registration order. -/
def matchingActionRules (cfg : PolicyConfig) (ty : String) : List PolicyRule :=
  cfg.rules.filter (fun r =>
    decide (r.appliesTo = .action) && r.target.matchesName ty)

/-- First `(target, pattern)` hit of the denied-files double loop
(targets outer, patterns inner). -/
def firstGlobHit : List String → List String → Option (String × String)
  | [], _ => none
  | t :: ts, pats =>
      match pats.find? (fun p => matchGlob t p) with
      | some p => some (t, p)
      | none => firstGlobHit ts pats

/-- Reason string of the denied-files return. -/
def deniedFileReason (t p rid : String) : String :=
  "File " ++ t ++ " matches denied pattern " ++ p ++ " (rule: " ++ rid ++ ")"

/-- The denied-files block of `checkAction`: an early return only when a
target matches a denied pattern and the rule's effect is `deny`. -/
def deniedFilesDecision (r : PolicyRule) (a : PAction) : Option PolicyDecision :=
  match condDeniedFiles r, a.targets with
  | some pats, some ts =>
      match firstGlobHit ts pats with
      | some (t, p) =>
          if r.effect = .deny then
            some { allowed := false, reason := some (deniedFileReason t p r.id) }
          else none
      | none => none
  | _, _ => none

/-- Reason string of the allowed-files return. -/
def allowedFileReason (t rid : String) : String :=
  "File " ++ t ++ " not in allowed patterns (rule: " ++ rid ++ ")"

/-- The allowed-files scan of `checkAction`.  Mirrors the source's
`fileAllowed` accumulator, which is declared once for the whole rule and
never reset between targets: once any target has matched, later targets
can no longer trigger the deny.  Returns the first target reached while
the accumulator is still false. -/
def allowedScan (pats : List String) : List String → Bool → Option String
  | [], _ => none
  | t :: ts, fileAllowed =>
      let fa := fileAllowed || pats.any (fun p => matchGlob t p)
      if fa then allowedScan pats ts fa else some t

/-- The allowed-files block of `checkAction`: an early return only when
the scan stops at a target and the rule's effect is `allow`. -/
def allowedFilesDecision (r : PolicyRule) (a : PAction) : Option PolicyDecision :=
  match condAllowedFiles r, a.targets with
  | some pats, some ts =>
      match allowedScan pats ts false with
      | some t =>
          if r.effect = .allow then
            some { allowed := false, reason := some (allowedFileReason t r.id) }
          else none
      | none => none
  | _, _ => none

/-- Reason string of the denied-commands return. -/
def deniedCommandReason (p rid : String) : String :=
  "Command matches denied pattern " ++ p ++ " (rule: " ++ rid ++ ")"

/-- The denied-commands block of `checkAction` (`rm` stands for the
engine's `matchRegex`, taken as a parameter of the embedding). -/
def deniedCommandsDecision (rm : String → String → Bool) (r : PolicyRule)
    (a : PAction) : Option PolicyDecision :=
  match condDeniedCommands r, a.command with
  | some pats, some cmd =>
      match pats.find? (fun p => rm cmd p) with
      | some p =>
          if r.effect = .deny then
            some { allowed := false, reason := some (deniedCommandReason p r.id) }
          else none
      | none => none
  | _, _ => none

/-- Reason string of the allowed-commands return. -/
def allowedCommandReason (rid : String) : String :=
  "Command not in allowed patterns (rule: " ++ rid ++ ")"

/-- The allowed-commands block of `checkAction`. -/
def allowedCommandsDecision (rm : String → String → Bool) (r : PolicyRule)
    (a : PAction) : Option PolicyDecision :=
  match condAllowedCommands r, a.command with
  | some pats, some cmd =>
      if pats.any (fun p => rm cmd p) then none
      else if r.effect = .allow then
        some { allowed := false, reason := some (allowedCommandReason r.id) }
      else none
  | _, _ => none

/-- Reason string of the hour-window return. -/
def timeHourReason (sh eh : Nat) : String :=
  "Action not allowed at this time (allowed: " ++ toString sh ++ ":00-"
    ++ toString eh ++ ":00)"

/-- The day-of-week sub-check: runs whenever `daysOfWeek` is present
(in JS even an empty array is truthy, so `some []` always denies). -/
def daysDecision (clk : Clock) (tr : TimeRestrictions) : Option PolicyDecision :=
  match tr.daysOfWeek with
  | some days =>
      if days.contains clk.day then none
      else some { allowed := false,
                  reason := some "Action not allowed on this day of week" }
  | none => none

/-- The time-restrictions block of `checkAction`: the hour window is
checked only when both bounds are present, then the day-of-week list. -/
def timeDecision (clk : Clock) (r : PolicyRule) : Option PolicyDecision :=
  match condTimeRestrictions r with
  | some tr =>
      match tr.startHour, tr.endHour with
      | some sh, some eh =>
          if clk.hour < sh || clk.hour ≥ eh then
            some { allowed := false, reason := some (timeHourReason sh eh) }
          else daysDecision clk tr
      | _, _ => daysDecision clk tr
  | none => none

/-- All early returns of one iteration of the `checkAction` rule loop,
in source order: denied files, allowed files, denied commands, allowed
commands, time restrictions. -/
def ruleEarlyDecision (rm : String → String → Bool) (clk : Clock)
    (r : PolicyRule) (a : PAction) : Option PolicyDecision :=
  (deniedFilesDecision r a) <|> (allowedFilesDecision r a)
    <|> (deniedCommandsDecision rm r a) <|> (allowedCommandsDecision rm r a)
    <|> (timeDecision clk r)

/-- The `checkAction` rule loop: each rule may return early; otherwise
the `requiresApproval` accumulator is overridden when the rule's
conditions specify it, and the loop continues.  Falling off the end
returns `{allowed: true, requiresApproval}`. -/
def checkRules (rm : String → String → Bool) (clk : Clock) :
    List PolicyRule → PAction → Bool → PolicyDecision
  | [], _, req => { allowed := true, requiresApproval := some req }
  | r :: rest, a, req =>
      match ruleEarlyDecision rm clk r a with
      | some d => d
      | none =>
          checkRules rm clk rest a
            (match condRequiresApproval r with
             | some b => b
             | none => req)

/-- `PolicyEngine.checkAction`: filters the action-scoped rules matching
the action type and runs the cumulative rule loop, starting the
approval accumulator at `config.defaultRequiresApproval`. -/
def checkAction (rm : String → String → Bool) (cfg : PolicyConfig)
    (clk : Clock) (a : PAction) : PolicyDecision :=
  checkRules rm clk (matchingActionRules cfg a.type) a cfg.defaultRequiresApproval

/-- Modelled from the spec (for comparison with `checkPipeline`):
"the first matching rule whose effect is `deny` immediately denies with
its id as the reason; otherwise allowed" — it searches for the first
matching rule *whose effect is deny*, unlike the source, which examines
only the first matching rule of any effect. -/
def checkPipelineSpecFirstDeny (cfg : PolicyConfig) (pid : String) : PolicyDecision :=
  match cfg.rules.find? (fun r =>
      decide (r.appliesTo = .pipeline) && r.target.matchesName pid
        && decide (r.effect = .deny)) with
  | some r => { allowed := false, reason := some (pipelineDenyReason pid r.id) }
  | none => { allowed := true }

/-! ## Pipeline engine data model (`PipelineEngine.js`)

Step outputs (`stepResult.data`) are opaque to the engine; we embed the
values the engine itself produces (`null` in the catch branch) plus an
opaque payload.  Actions are likewise passed through untouched by
`runPipeline`, so they are embedded as opaque tokens.
-/

/-- A JS value as far as the engine inspects it. -/
inductive JVal where
  | null
  | str (s : String)
deriving DecidableEq

/-- An action proposed by a step; `runPipeline` only concatenates these. -/
abbrev EAction := String

/-- A `PipelineStep` restricted to the fields the engine reads.  The
boolean flags embed JS truthiness of possibly-absent fields; the string
fields use `""` for a missing/falsy value, mirroring the `!step.id`
style presence checks. -/
structure EStep where
  id : String
  name : String
  agent : String
  method : String
  inputFrom : String
  continueOnError : Bool := false
  requiresApproval : Bool := false
deriving DecidableEq

/-- A `PipelineStepResult`.  `actions` is `none` when the field is
absent from the object (the catch-branch result), `some l` when
`executeStep` set it (always an array, possibly empty). -/
structure EStepResult where
  stepId : String
  stepName : String
  success : Bool
  data : JVal
  error : Option String := none
  duration : Nat
  timestamp : String
  signature : Option String := none
  actions : Option (List EAction) := none
deriving DecidableEq

/-- A pipeline definition as passed to `registerPipeline`; `steps` is
`none` when the field is missing or not an array. -/
structure RawPipelineDef where
  id : String
  name : String
  steps : Option (List EStep)
  defaultContext : List (String × JVal) := []
  requiresApproval : Bool := false
deriving DecidableEq

/-- A validated pipeline definition as stored in the registry. -/
structure EPipelineDef where
  id : String
  name : String
  steps : List EStep
  defaultContext : List (String × JVal) := []
  requiresApproval : Bool := false
deriving DecidableEq

/-- JS object/`Map` assignment `m[k] = v`: replace the value at an
existing key, else append the new key at the end. -/
def setKey (m : List (String × JVal)) (k : String) (v : JVal) :
    List (String × JVal) :=
  if m.any (fun p => p.1 == k) then
    m.map (fun p => if p.1 == k then (k, v) else p)
  else m ++ [(k, v)]

/-- Object spread `{...a, ...b}`: keys of `b` override those of `a`. -/
def mergeAssoc (a b : List (String × JVal)) : List (String × JVal) :=
  b.foldl (fun acc p => setKey acc p.1 p.2) a

/-- `Map.set` on the pipeline registry (insertion order preserved,
last write per id wins). -/
def mapSet (reg : List (String × EPipelineDef)) (k : String)
    (v : EPipelineDef) : List (String × EPipelineDef) :=
  if reg.any (fun p => p.1 == k) then
    reg.map (fun p => if p.1 == k then (k, v) else p)
  else reg ++ [(k, v)]

/-- `Map.get` on the pipeline registry. -/
def lookupReg (reg : List (String × EPipelineDef)) (k : String) :
    Option EPipelineDef :=
  (reg.find? (fun p => p.1 == k)).map (·.2)

/-- `validatePipelineDefinition`: the `forEach` over steps, checking in
order that each step has an id, an agent, a method and an `inputFrom`,
throwing on the first missing field. -/
def validateSteps : Nat → List EStep → Except String Unit
  | _, [] => .ok ()
  | i, s :: rest =>
      if s.id == "" then .error ("Step " ++ toString i ++ " missing id")
      else if s.agent == "" then .error ("Step " ++ s.id ++ " missing agent")
      else if s.method == "" then .error ("Step " ++ s.id ++ " missing method")
      else if s.inputFrom == "" then
        .error ("Step " ++ s.id ++ " missing inputFrom")
      else validateSteps (i + 1) rest

/-- `PipelineEngine.registerPipeline`: id present, steps an array,
per-step field validation, then `Map.set` (last write wins).  Thrown
errors are the `Except.error` results. -/
def registerPipeline (reg : List (String × EPipelineDef))
    (d : RawPipelineDef) : Except String (List (String × EPipelineDef)) :=
  if d.id == "" then .error "Pipeline must have an id"
  else
    match d.steps with
    | none => .error "Pipeline must have a steps array"
    | some steps =>
        match validateSteps 0 steps with
        | .error e => .error e
        | .ok _ =>
            .ok (mapSet reg d.id
              { id := d.id, name := d.name, steps := steps,
                defaultContext := d.defaultContext,
                requiresApproval := d.requiresApproval })

/-! ## Pipeline execution (`runPipeline`, `executeStep`) -/

/-- The argument of `requestApproval` as far as the engine's control
flow depends on it. -/
inductive ApprovalReq where
  | pipeline (name : String)
  | step (name : String)
deriving DecidableEq

/-- Outcome of the external part of `executeStep` after the policy and
approval gates: the agent/method lookup, the provider call under the
timeout race, the result transform and the action extraction.  Either
some part of it threw, or it produced the fields of the success-path
`StepResult`. -/
inductive AgentOutcome where
  | throws (msg : String)
  | returns (success : Bool) (data : JVal) (duration : Nat)
      (timestamp : String) (signature : Option String)
      (actions : List EAction)

/-- The engine's fixed collaborators for one run: the options, the
optional policy engine, the approval callback, the provider invocation
(as a function of the step and the results so far), and the timestamp
the catch branch reads from the clock. -/
structure EngineEnv where
  autoApprove : Bool
  hasOnStepComplete : Bool
  policy : Option PolicyConfig
  approve : ApprovalReq → Bool
  invoke : EStep → List EStepResult → AgentOutcome
  catchTimestamp : String

/-- The `StepResult` object built in the catch branch of the step loop:
success false, null data, the thrown message, duration 0, and no
signature/actions fields. -/
def catchStepResult (env : EngineEnv) (step : EStep) (msg : String) :
    EStepResult :=
  { stepId := step.id, stepName := step.name, success := false,
    data := .null, error := some msg, duration := 0,
    timestamp := env.catchTimestamp }

/-- `PipelineEngine.executeStep`, up to its observable outcome: the
input build throws for a `previousStep` source with no prior results;
then the step-level policy check, then the approval gate, then the
external invocation.  (`contextBuilder` is step-definition code and is
assumed total; its output feeds `invoke`.) -/
def executeStep (env : EngineEnv) (step : EStep)
    (previousResults : List EStepResult) : Except String EStepResult :=
  if step.inputFrom == "previousStep" && previousResults.isEmpty then
    .error ("Step " ++ step.id ++ " requires previous step but none exists")
  else
    let afterPolicy : Except String EStepResult :=
      if step.requiresApproval && !env.autoApprove
          && !env.approve (.step step.name) then
        .error "Step execution rejected by user"
      else
        match env.invoke step previousResults with
        | .throws m => .error m
        | .returns success data duration timestamp signature actions =>
            .ok { stepId := step.id, stepName := step.name,
                  success := success, data := data, error := none,
                  duration := duration, timestamp := timestamp,
                  signature := signature, actions := some actions }
    match env.policy with
    | some cfg =>
        let pc := checkStep cfg step.agent
        if pc.allowed then afterPolicy
        else .error ("Step blocked by policy: " ++ pc.reason.getD "")
    | none => afterPolicy

/-- The mutable state of the step loop at exit: the results array, the
`executionContext.stepResults` map, the collected actions, the step ids
for which `onStepComplete` fired (instrumentation of the callback, not
a field of the source result object), and the `pipelineSuccess` /
`pipelineError` variables. -/
structure LoopOut where
  results : List EStepResult
  ctxMap : List (String × JVal)
  actions : List EAction
  calls : List String
  success : Bool
  error : Option String := none
deriving DecidableEq

/-- The `for` loop of `runPipeline`.  The try branch appends the step
result, stores its data in the context map, concatenates its actions,
fires the observer, and breaks on a failed result whose step does not
continue on error.  The catch branch appends only the converted result
and breaks likewise. -/
def runLoop (env : EngineEnv) : List EStep → List EStepResult →
    List (String × JVal) → List EAction → List String → LoopOut
  | [], results, ctxMap, acts, calls =>
      { results := results, ctxMap := ctxMap, actions := acts,
        calls := calls, success := true }
  | step :: rest, results, ctxMap, acts, calls =>
      match executeStep env step results with
      | .ok sr =>
          let results' := results ++ [sr]
          let ctxMap' := setKey ctxMap step.id sr.data
          let acts' := acts ++ sr.actions.getD []
          let calls' := if env.hasOnStepComplete then calls ++ [step.id] else calls
          if !sr.success && !step.continueOnError then
            { results := results', ctxMap := ctxMap', actions := acts',
              calls := calls', success := false, error := sr.error }
          else runLoop env rest results' ctxMap' acts' calls'
      | .error m =>
          let results' := results ++ [catchStepResult env step m]
          if !step.continueOnError then
            { results := results', ctxMap := ctxMap, actions := acts,
              calls := calls, success := false, error := some m }
          else runLoop env rest results' ctxMap acts calls

/-- The `PipelineResult` (wall-clock duration and start/end timestamps
omitted; `calls` is the observer instrumentation carried out of the
loop). -/
structure EPipelineResult where
  pipelineId : String
  pipelineName : String
  success : Bool
  steps : List EStepResult
  actions : List EAction
  error : Option String := none
  contextBase : List (String × JVal)
  stepResultsCtx : List (String × JVal)
  calls : List String
deriving DecidableEq

/-- The body of `runPipeline` after both pipeline-level gates passed:
run the loop and assemble the result. -/
def runBody (env : EngineEnv) (p : EPipelineDef)
    (ctxBase : List (String × JVal)) : Except String EPipelineResult :=
  let out := runLoop env p.steps [] [] [] []
  .ok { pipelineId := p.id, pipelineName := p.name, success := out.success,
        steps := out.results, actions := out.actions, error := out.error,
        contextBase := ctxBase, stepResultsCtx := out.ctxMap,
        calls := out.calls }

/-- The pipeline-level approval gate of `runPipeline`: a required,
non-auto-approved pipeline whose approval callback answers false throws
`'Pipeline execution rejected by user'`. -/
def runApproval (env : EngineEnv) (p : EPipelineDef)
    (ctxBase : List (String × JVal)) : Except String EPipelineResult :=
  if p.requiresApproval && !env.autoApprove then
    if env.approve (.pipeline p.name) then runBody env p ctxBase
    else .error "Pipeline execution rejected by user"
  else runBody env p ctxBase

/-- `runPipeline` once the pipeline was found: merge the default
context with the caller's, then the pipeline-level policy gate (which
throws `'Pipeline blocked by policy: …'` on denial), then the approval
gate. -/
def runFound (env : EngineEnv) (p : EPipelineDef)
    (ctx : List (String × JVal)) : Except String EPipelineResult :=
  let ctxBase := mergeAssoc p.defaultContext ctx
  match env.policy with
  | some cfg =>
      let pc := checkPipeline cfg p.id
      if pc.allowed then runApproval env p ctxBase
      else .error ("Pipeline blocked by policy: " ++ pc.reason.getD "")
  | none => runApproval env p ctxBase

/-- `PipelineEngine.runPipeline`: unknown ids throw
`'Pipeline not found: …'`; otherwise the gated run. -/
def runPipeline (env : EngineEnv) (reg : List (String × EPipelineDef))
    (pid : String) (ctx : List (String × JVal)) :
    Except String EPipelineResult :=
  match lookupReg reg pid with
  | none => .error ("Pipeline not found: " ++ pid)
  | some p => runFound env p ctx

/-- The pipeline-level policy gate denies: a policy engine is attached
and its `checkPipeline` says not allowed. -/
def pipelinePolicyDenies (env : EngineEnv) (p : EPipelineDef) : Prop :=
  ∃ cfg, env.policy = some cfg ∧ (checkPipeline cfg p.id).allowed = false

/-- The pipeline-level approval gate rejects. -/
def pipelineApprovalRejects (env : EngineEnv) (p : EPipelineDef) : Prop :=
  p.requiresApproval = true ∧ env.autoApprove = false
    ∧ env.approve (.pipeline p.name) = false

/-- Every required step field is a non-empty (truthy) string. -/
def stepFieldsPresent (s : EStep) : Prop :=
  s.id ≠ "" ∧ s.agent ≠ "" ∧ s.method ≠ "" ∧ s.inputFrom ≠ ""

/-! ## Concrete instances used by counterexamples and witnesses -/

/-- A command matcher that never matches (no command conditions are
exercised where it is used). -/
def rmFalse : String → String → Bool := fun _ _ => false

/-- An arbitrary clock reading. -/
def clk0 : Clock := ⟨0, 0⟩

/-- A whitelist rule: `CREATE_FILE` actions must target files matching
`a`. -/
def ruleC1 : PolicyRule :=
  { id := "allow-a", appliesTo := .action, target := .one "CREATE_FILE",
    effect := .allow, conditions := some { allowedFiles := some ["a"] } }

/-- A config holding only `ruleC1`. -/
def cfgC1 : PolicyConfig :=
  { version := "1.0.0", defaultEffect := .allow,
    defaultRequiresApproval := true, rules := [ruleC1] }

/-- An action whose first target matches the whitelist and whose second
does not. -/
def actTwoTargets : PAction :=
  { type := "CREATE_FILE", targets := some ["a", "b"] }

/-- An action whose only (hence first) target misses the whitelist. -/
def actFirstMiss : PAction :=
  { type := "CREATE_FILE", targets := some ["b"] }

/-- Two pipeline-scoped rules for the same pipeline: an `allow` rule
registered before a `deny` rule. -/
def cfgAllowThenDeny : PolicyConfig :=
  { version := "1.0.0", defaultEffect := .allow,
    defaultRequiresApproval := true,
    rules := [ { id := "allow-p", appliesTo := .pipeline, target := .one "p",
                 effect := .allow },
               { id := "deny-p", appliesTo := .pipeline, target := .one "p",
                 effect := .deny } ] }

/-- An action rule restricted to the 10:00–11:00 window. -/
def cfgOfficeHours : PolicyConfig :=
  { version := "1.0.0", defaultEffect := .allow,
    defaultRequiresApproval := true,
    rules := [ { id := "office-hours", appliesTo := .action,
                 target := .one "RUN_COMMAND", effect := .allow,
                 conditions := some
                   { timeRestrictions := some (TimeRestrictions.mk (some 10) (some 11) none) } } ] }

/-- A bare `RUN_COMMAND` action. -/
def actRun : PAction := { type := "RUN_COMMAND" }

/-- A minimal valid step. -/
def stepA : EStep :=
  { id := "a", name := "A", agent := "base", method := "query",
    inputFrom := "user" }

/-- A second minimal valid step, not continuing on error. -/
def stepB : EStep :=
  { id := "b", name := "B", agent := "base", method := "query",
    inputFrom := "user" }

/-- A third minimal valid step. -/
def stepCc : EStep :=
  { id := "c", name := "C", agent := "base", method := "query",
    inputFrom := "user" }

/-- A single-step pipeline `p`. -/
def pipeOne : EPipelineDef := { id := "p", name := "P", steps := [stepA] }

/-- A registry holding only `pipeOne`. -/
def regOne : List (String × EPipelineDef) := [("p", pipeOne)]

/-- A policy denying pipeline `p`. -/
def cfgDenyP : PolicyConfig :=
  { version := "1.0.0", defaultEffect := .allow,
    defaultRequiresApproval := true,
    rules := [ { id := "no-p", appliesTo := .pipeline, target := .one "p",
                 effect := .deny } ] }

/-- An engine whose policy denies pipeline `p`. -/
def envDenyP : EngineEnv :=
  { autoApprove := false, hasOnStepComplete := false,
    policy := some cfgDenyP, approve := fun _ => true,
    invoke := fun _ _ => .returns true .null 0 "T1" none [],
    catchTimestamp := "T0" }

/-- The step of the C5 comparison: it continues on error. -/
def stepCont : EStep :=
  { id := "s1", name := "S1", agent := "base", method := "query",
    inputFrom := "user", continueOnError := true }

/-- A pipeline holding only `stepCont`. -/
def pipeCont : EPipelineDef := { id := "p", name := "P", steps := [stepCont] }

/-- A registry holding only `pipeCont`. -/
def regCont : List (String × EPipelineDef) := [("p", pipeCont)]

/-- An engine (with an observer attached) whose provider call throws. -/
def envThrow : EngineEnv :=
  { autoApprove := false, hasOnStepComplete := true, policy := none,
    approve := fun _ => true, invoke := fun _ _ => .throws "boom",
    catchTimestamp := "T0" }

/-- The same engine except the provider call returns a failed result
(success false, null data, no actions). -/
def envRet : EngineEnv :=
  { autoApprove := false, hasOnStepComplete := true, policy := none,
    approve := fun _ => true,
    invoke := fun _ _ => .returns false .null 5 "T5" none [],
    catchTimestamp := "T0" }

/-- The step result the catch branch produces under `envThrow`. -/
def srThrow : EStepResult :=
  { stepId := "s1", stepName := "S1", success := false, data := .null,
    error := some "boom", duration := 0, timestamp := "T0" }

/-- The step result the try branch produces under `envRet`. -/
def srRet : EStepResult :=
  { stepId := "s1", stepName := "S1", success := false, data := .null,
    error := none, duration := 5, timestamp := "T5", signature := none,
    actions := some [] }

/-- The pipeline result of the throwing run: no context entry, no
observer call. -/
def resThrow : EPipelineResult :=
  { pipelineId := "p", pipelineName := "P", success := true,
    steps := [srThrow], actions := [], error := none, contextBase := [],
    stepResultsCtx := [], calls := [] }

/-- The pipeline result of the returned-failure run: the null output is
stored under the step id and the observer fired. -/
def resRet : EPipelineResult :=
  { pipelineId := "p", pipelineName := "P", success := true,
    steps := [srRet], actions := [], error := none, contextBase := [],
    stepResultsCtx := [("s1", JVal.null)], calls := ["s1"] }

/-- The three-step pipeline [A, B, C] of the C6 scenario. -/
def pipeABC : EPipelineDef :=
  { id := "p", name := "P", steps := [stepA, stepB, stepCc] }

/-- A registry holding only `pipeABC`. -/
def regABC : List (String × EPipelineDef) := [("p", pipeABC)]

/-- An engine under which step `a` succeeds and every other step
throws. -/
def envAokBthrows : EngineEnv :=
  { autoApprove := false, hasOnStepComplete := false, policy := none,
    approve := fun _ => true,
    invoke := fun s _ =>
      if s.id == "a" then .returns true (.str "ok") 1 "TA" none []
      else .throws "bfail",
    catchTimestamp := "T0" }

/-- The step result of `a` under `envAokBthrows`. -/
def raOk : EStepResult :=
  { stepId := "a", stepName := "A", success := true, data := .str "ok",
    error := none, duration := 1, timestamp := "TA", signature := none,
    actions := some [] }

/-- A failing step that continues on error, for the C7 scenario. -/
def stepD : EStep :=
  { id := "d", name := "D", agent := "base", method := "query",
    inputFrom := "user", continueOnError := true }

/-- A succeeding step for the C7 scenario. -/
def stepE : EStep :=
  { id := "e", name := "E", agent := "base", method := "query",
    inputFrom := "user" }

/-- The two-step pipeline [D, E]. -/
def pipeDE : EPipelineDef := { id := "p", name := "P", steps := [stepD, stepE] }

/-- A registry holding only `pipeDE`. -/
def regDE : List (String × EPipelineDef) := [("p", pipeDE)]

/-- An engine under which step `d` fails (returned result) and step `e`
succeeds. -/
def envDfailEok : EngineEnv :=
  { autoApprove := false, hasOnStepComplete := false, policy := none,
    approve := fun _ => true,
    invoke := fun s _ =>
      if s.id == "d" then .returns false .null 1 "TD" none []
      else .returns true .null 1 "TE" none [],
    catchTimestamp := "T0" }

/-- The full run of `pipeDE` under `envDfailEok`: both steps executed,
the failing one continued past. -/
def resDE : EPipelineResult :=
  { pipelineId := "p", pipelineName := "P", success := true,
    steps := [ { stepId := "d", stepName := "D", success := false,
                 data := .null, error := none, duration := 1,
                 timestamp := "TD", signature := none, actions := some [] },
               { stepId := "e", stepName := "E", success := true,
                 data := .null, error := none, duration := 1,
                 timestamp := "TE", signature := none, actions := some [] } ],
    actions := [], error := none, contextBase := [],
    stepResultsCtx := [("d", JVal.null), ("e", JVal.null)], calls := [] }

/-- A raw definition whose two steps share the id `a`. -/
def dupRaw : RawPipelineDef :=
  { id := "p", name := "P", steps := some [stepA, stepA] }

/-- The stored form of `dupRaw`. -/
def dupStored : EPipelineDef :=
  { id := "p", name := "P", steps := [stepA, stepA] }

/-- A raw definition with one valid step. -/
def okRaw : RawPipelineDef :=
  { id := "q", name := "Q", steps := some [stepA] }

/-- The stored form of `okRaw`. -/
def okStored : EPipelineDef := { id := "q", name := "Q", steps := [stepA] }

/-- Decidable equality of `Except` values, used to evaluate the
embedded engine on concrete inputs. -/
instance {e a : Type} [DecidableEq e] [DecidableEq a] : DecidableEq (Except e a)
  | .error x, .error y =>
      if h : x = y then .isTrue (by rw [h])
      else .isFalse (by intro hh; injection hh; exact h (by assumption))
  | .error _, .ok _ => .isFalse (by intro hh; exact Except.noConfusion hh)
  | .ok _, .error _ => .isFalse (by intro hh; exact Except.noConfusion hh)
  | .ok x, .ok y =>
      if h : x = y then .isTrue (by rw [h])
      else .isFalse (by intro hh; injection hh; exact h (by assumption))

/-! ## Lemmas about the glob matcher -/

/-- Generic characterization of the star cases of `rmatch`: trying all
split points equals the existence of a split whose first part satisfies
the character predicate. -/
theorem starSplit_iff (ok : Char → Bool) (k : List Char → Bool) (s : List Char) :
    ((List.range (s.length + 1)).any fun i =>
        (s.take i).all ok && k (s.drop i)) = true
      ↔ ∃ a b, s = a ++ b ∧ a.all ok = true ∧ k b = true := by
  simp only [List.any_eq_true, List.mem_range, Bool.and_eq_true]
  constructor
  · rintro ⟨i, _, hall, hk⟩
    exact ⟨s.take i, s.drop i, (List.take_append_drop i s).symm, hall, hk⟩
  · rintro ⟨a, b, rfl, hall, hk⟩
    refine ⟨a.length, ?_, ?_, ?_⟩
    · have := List.length_append a b
      omega
    · rw [List.take_left]; exact hall
    · rw [List.drop_left]; exact hk

/-- `.*` (from `**`) consumes an arbitrary run of non-line-terminator
characters, slashes included. -/
theorem rmatch_starAny (ts : List GTok) (s : List Char) :
    rmatch (.starAny :: ts) s = true
      ↔ ∃ a b, s = a ++ b ∧ a.all (fun c => !isLineTerm c) = true
          ∧ rmatch ts b = true := by
  rw [rmatch]
  exact starSplit_iff _ _ s

/-- `[^/]*` (from a single `*`) consumes an arbitrary run of
non-slash characters. -/
theorem rmatch_starSeg (ts : List GTok) (s : List Char) :
    rmatch (.starSeg :: ts) s = true
      ↔ ∃ a b, s = a ++ b ∧ a.all (fun c => c != '/') = true
          ∧ rmatch ts b = true := by
  rw [rmatch]
  exact starSplit_iff _ _ s

/-- `.` (from `?`) consumes exactly one non-line-terminator
character. -/
theorem rmatch_anyChar (ts : List GTok) (s : List Char) :
    rmatch (.anyChar :: ts) s = true
      ↔ ∃ c b, s = c :: b ∧ isLineTerm c = false ∧ rmatch ts b = true := by
  cases s with
  | nil => simp [rmatch]
  | cons x xs =>
      simp only [rmatch, Bool.and_eq_true, Bool.not_eq_true']
      constructor
      · rintro ⟨h1, h2⟩; exact ⟨x, xs, rfl, h1, h2⟩
      · rintro ⟨c, b, he, h1, h2⟩
        injection he with he1 he2
        subst he1; subst he2
        exact ⟨h1, h2⟩

/-- Matching is anchored: an exhausted token list accepts only the end
of the candidate. -/
theorem rmatch_nil (s : List Char) : rmatch [] s = true ↔ s = [] := by
  cases s <;> simp [rmatch]

/-- C3 (counterexample): the claim asserts
`matchGlob('.env', '**/.env') = true` (a pattern beginning `**/` also
matching a candidate with zero leading segments); on the code the
slash after `**` is a literal that `.env` cannot supply, so the match
is false. -/
theorem C3_zero_segments_counterexample :
    matchGlob ".env" "**/.env" = false := by decide

/-- C3 (amended): `matchGlob` is anchored; `**` compiles to `.*` and
consumes any run of non-line-terminator characters, `/` included; a
single `*` compiles to `[^/]*` and never crosses a `/`; `?` consumes
exactly one character.  But the `/` of a leading `**/` remains a
literal, so such a pattern requires at least one separator in the
candidate: `matchGlob('.env','**/.env') = false` while
`matchGlob('project/.env','**/.env') = true`. -/
theorem C3_glob_semantics :
    (∀ (ts : List GTok) (s : List Char),
        rmatch (.starAny :: ts) s = true
          ↔ ∃ a b, s = a ++ b ∧ a.all (fun c => !isLineTerm c) = true
              ∧ rmatch ts b = true)
    ∧ (∀ (ts : List GTok) (s : List Char),
        rmatch (.starSeg :: ts) s = true
          ↔ ∃ a b, s = a ++ b ∧ a.all (fun c => c != '/') = true
              ∧ rmatch ts b = true)
    ∧ (∀ (ts : List GTok) (s : List Char),
        rmatch (.anyChar :: ts) s = true
          ↔ ∃ c b, s = c :: b ∧ isLineTerm c = false ∧ rmatch ts b = true)
    ∧ (∀ s : List Char, rmatch [] s = true ↔ s = [])
    ∧ globTokens "**/.env".toList
        = [.starAny, .lit '/', .lit '.', .lit 'e', .lit 'n', .lit 'v']
    ∧ matchGlob ".env" "**/.env" = false
    ∧ matchGlob "project/.env" "**/.env" = true :=
  ⟨rmatch_starAny, rmatch_starSeg, rmatch_anyChar, rmatch_nil,
    by decide, by decide, by decide⟩

/-- C8: the four spec test vectors of the glob matcher all hold on the
code. -/
theorem C8_glob_vectors :
    matchGlob "project/.env" "**/.env" = true
    ∧ matchGlob "src/file.js" "**/*.pem" = false
    ∧ matchGlob "project/secrets/api.key" "**/secrets/**" = true
    ∧ matchGlob "src/app.js" "**/secrets/**" = false :=
  ⟨by decide, by decide, by decide, by decide⟩

/-! ## Lemmas about `checkAction` -/

/-- The denied-files block never returns for a rule whose effect is
`allow` (its return is guarded by `effect === 'deny'`). -/
theorem deniedFiles_allow (r : PolicyRule) (a : PAction)
    (h : r.effect = .allow) : deniedFilesDecision r a = none := by
  unfold deniedFilesDecision
  split
  · split
    · rw [h]; simp
    · rfl
  · rfl

/-- C1 (counterexample): the claim — whenever a matching allow-rule
declares allowed-file patterns and some target of the action matches
none of them, `checkAction` denies — is false: because the source's
`fileAllowed` flag is never reset between targets, a non-matching
target that comes after a matching one is not denied.  Witnessed by
`cfgC1`/`actTwoTargets`, where target `b` matches no allowed pattern
yet the action is allowed. -/
theorem C1_counterexample :
    ¬ (∀ (rm : String → String → Bool) (cfg : PolicyConfig) (clk : Clock)
        (a : PAction) (r : PolicyRule) (pats ts : List String) (t : String),
        r ∈ cfg.rules → r.appliesTo = .action →
        r.target.matchesName a.type = true → r.effect = .allow →
        condAllowedFiles r = some pats → a.targets = some ts → t ∈ ts →
        (∀ p ∈ pats, matchGlob t p = false) →
        (checkAction rm cfg clk a).allowed = false) := by
  intro h
  have := h rmFalse cfgC1 clk0 actTwoTargets ruleC1 ["a"] ["a", "b"] "b"
    (by decide) (by decide) (by decide) (by decide) (by decide) (by decide)
    (by decide) (by decide)
  revert this
  decide

/-- C1 (amended): if the first action-scoped rule matching the action
type is an allow-rule declaring allowed-file patterns, and the *first*
target of the action matches none of them, `checkAction` denies with a
reason citing that target and the rule id.  (Targets after the first
one to match are no longer tested — see the counterexample.) -/
theorem C1_allowed_files_first_target
    (rm : String → String → Bool) (cfg : PolicyConfig) (clk : Clock)
    (a : PAction) (r : PolicyRule) (rest : List PolicyRule)
    (pats ts : List String) (t : String)
    (hm : matchingActionRules cfg a.type = r :: rest)
    (he : r.effect = .allow)
    (hc : condAllowedFiles r = some pats)
    (ht : a.targets = some (t :: ts))
    (hp : ∀ p ∈ pats, matchGlob t p = false) :
    checkAction rm cfg clk a
      = { allowed := false, reason := some (allowedFileReason t r.id) } := by
  have hany : pats.any (fun p => matchGlob t p) = false := by
    rw [List.any_eq_false]
    intro p hpp
    simpa using hp p hpp
  have ha : allowedFilesDecision r a
      = some { allowed := false, reason := some (allowedFileReason t r.id) } := by
    have hscan : allowedScan pats (t :: ts) false = some t := by
      rw [allowedScan.eq_def]
      simp [hany]
    simp only [allowedFilesDecision, hc, ht, hscan, he]
    simp
  have hearly : ruleEarlyDecision rm clk r a
      = some { allowed := false, reason := some (allowedFileReason t r.id) } := by
    unfold ruleEarlyDecision
    rw [deniedFiles_allow r a he, ha]
    rfl
  unfold checkAction
  rw [hm, checkRules, hearly]

/-- Witness for `C1_allowed_files_first_target` at `cfgC1` and an
action whose first target misses the whitelist. -/
theorem C1_allowed_files_first_target_witness :
    checkAction rmFalse cfgC1 clk0 actFirstMiss
      = { allowed := false, reason := some (allowedFileReason "b" "allow-a") } :=
  C1_allowed_files_first_target rmFalse cfgC1 clk0 actFirstMiss ruleC1 []
    ["a"] [] "b" (by decide) (by decide) (by decide) (by decide) (by decide)

/-! ## Lemmas about `checkPipeline` / `checkStep` -/

/-- `List.find?` characterized by a decomposition: it returns `x` iff
the list splits as a prefix of non-satisfying elements, then `x`. -/
theorem find?_decomp {α : Type} (p : α → Bool) :
    ∀ (l : List α) (x : α),
      l.find? p = some x
        ↔ ∃ l1 l2, l = l1 ++ x :: l2 ∧ p x = true ∧ ∀ y ∈ l1, p y = false := by
  intro l
  induction l with
  | nil => intro x; simp
  | cons a l ih =>
      intro x
      cases hpa : p a with
      | true =>
          rw [List.find?_cons_of_pos _ hpa]
          constructor
          · intro h
            injection h with h
            subst h
            exact ⟨[], l, rfl, hpa, by simp⟩
          · rintro ⟨l1, l2, heq, hpx, hall⟩
            cases l1 with
            | nil =>
                simp only [List.nil_append, List.cons.injEq] at heq
                rw [heq.1]
            | cons b l1 =>
                simp only [List.cons_append, List.cons.injEq] at heq
                have hb := hall a (by rw [heq.1]; exact List.mem_cons_self b l1)
                rw [hb] at hpa
                cases hpa
      | false =>
          rw [List.find?_cons_of_neg _ (by simp [hpa])]
          rw [ih x]
          constructor
          · rintro ⟨l1, l2, heq, hpx, hall⟩
            refine ⟨a :: l1, l2, by rw [heq, List.cons_append], hpx, ?_⟩
            intro y hy
            rcases List.mem_cons.mp hy with h | h
            · rw [h]; exact hpa
            · exact hall y h
          · rintro ⟨l1, l2, heq, hpx, hall⟩
            cases l1 with
            | nil =>
                simp only [List.nil_append, List.cons.injEq] at heq
                rw [heq.1] at hpa
                rw [hpx] at hpa
                cases hpa
            | cons b l1 =>
                simp only [List.cons_append, List.cons.injEq] at heq
                exact ⟨l1, l2, heq.2, hpx,
                  fun y hy => hall y (List.mem_cons_of_mem b hy)⟩

/-- C2 (counterexample): with an `allow` rule for pipeline `p`
registered before a `deny` rule for the same pipeline, the code allows
the pipeline — the first matching rule of any effect decides — while
the claimed first-matching-deny semantics (modelled by
`checkPipelineSpecFirstDeny`) denies it. -/
theorem C2_counterexample :
    checkPipeline cfgAllowThenDeny "p" = { allowed := true }
    ∧ checkPipelineSpecFirstDeny cfgAllowThenDeny "p"
        = { allowed := false,
            reason := some (pipelineDenyReason "p" "deny-p") }
    ∧ checkPipeline cfgAllowThenDeny "p"
        ≠ checkPipelineSpecFirstDeny cfgAllowThenDeny "p" :=
  ⟨by decide, by decide, by decide⟩

/-- C2 (amended): a pipeline-scoped (resp. agent-scoped) check denies
iff the *first* rule matching the subject — of any effect, in
registration order — exists and has effect `deny`; the reason then
cites that rule's id.  In particular an earlier matching `allow` rule
shields all later matching `deny` rules. -/
theorem C2_first_match_decides :
    (∀ (cfg : PolicyConfig) (pid : String),
      (checkPipeline cfg pid).allowed = false
        ↔ ∃ l1 r l2, cfg.rules = l1 ++ r :: l2
            ∧ (decide (r.appliesTo = Scope.pipeline)
                && r.target.matchesName pid) = true
            ∧ r.effect = .deny
            ∧ (∀ r' ∈ l1, (decide (r'.appliesTo = Scope.pipeline)
                && r'.target.matchesName pid) = false)
            ∧ checkPipeline cfg pid
                = { allowed := false,
                    reason := some (pipelineDenyReason pid r.id) })
    ∧ (∀ (cfg : PolicyConfig) (ag : String),
      (checkStep cfg ag).allowed = false
        ↔ ∃ l1 r l2, cfg.rules = l1 ++ r :: l2
            ∧ (decide (r.appliesTo = Scope.agent)
                && r.target.matchesName ag) = true
            ∧ r.effect = .deny
            ∧ (∀ r' ∈ l1, (decide (r'.appliesTo = Scope.agent)
                && r'.target.matchesName ag) = false)
            ∧ checkStep cfg ag
                = { allowed := false,
                    reason := some (agentDenyReason ag r.id) }) := by
  constructor
  · intro cfg pid
    cases hf : cfg.rules.find? (fun r =>
        decide (r.appliesTo = Scope.pipeline) && r.target.matchesName pid) with
    | none =>
        have hcp : checkPipeline cfg pid = { allowed := true } := by
          unfold checkPipeline
          rw [hf]
        rw [hcp]
        simp only [Bool.true_eq_false, false_iff]
        rintro ⟨l1, r, l2, heq, hmatch, _, hpre, _⟩
        have hfind : cfg.rules.find? (fun r =>
            decide (r.appliesTo = Scope.pipeline)
              && r.target.matchesName pid) = some r :=
          (find?_decomp _ _ _).mpr ⟨l1, l2, heq, hmatch, hpre⟩
        rw [hf] at hfind
        cases hfind
    | some r =>
        have hmem := (find?_decomp _ _ _).mp hf
        obtain ⟨l1, l2, heq, hmatch, hpre⟩ := hmem
        have hcp : checkPipeline cfg pid
            = if r.effect = .deny
              then { allowed := false,
                     reason := some (pipelineDenyReason pid r.id) }
              else { allowed := true } := by
          unfold checkPipeline
          rw [hf]
        cases hd : r.effect with
        | deny =>
            have hcp' : checkPipeline cfg pid
                = { allowed := false,
                    reason := some (pipelineDenyReason pid r.id) } := by
              rw [hcp, hd, if_pos rfl]
            rw [hcp']
            simp only [true_iff]
            exact ⟨l1, r, l2, heq, hmatch, hd, hpre, rfl⟩
        | allow =>
            have hcp' : checkPipeline cfg pid = { allowed := true } := by
              rw [hcp, hd, if_neg (by intro h; cases h)]
            rw [hcp']
            simp only [Bool.true_eq_false, false_iff]
            rintro ⟨l1', r', l2', heq', hmatch', hd', hpre', _⟩
            have hfind : cfg.rules.find? (fun r =>
                decide (r.appliesTo = Scope.pipeline)
                  && r.target.matchesName pid) = some r' :=
              (find?_decomp _ _ _).mpr ⟨l1', l2', heq', hmatch', hpre'⟩
            rw [hf] at hfind
            injection hfind with hfind
            rw [← hfind] at hd'
            rw [hd] at hd'
            cases hd'
  · intro cfg ag
    cases hf : cfg.rules.find? (fun r =>
        decide (r.appliesTo = Scope.agent) && r.target.matchesName ag) with
    | none =>
        have hcp : checkStep cfg ag = { allowed := true } := by
          unfold checkStep
          rw [hf]
        rw [hcp]
        simp only [Bool.true_eq_false, false_iff]
        rintro ⟨l1, r, l2, heq, hmatch, _, hpre, _⟩
        have hfind : cfg.rules.find? (fun r =>
            decide (r.appliesTo = Scope.agent)
              && r.target.matchesName ag) = some r :=
          (find?_decomp _ _ _).mpr ⟨l1, l2, heq, hmatch, hpre⟩
        rw [hf] at hfind
        cases hfind
    | some r =>
        have hmem := (find?_decomp _ _ _).mp hf
        obtain ⟨l1, l2, heq, hmatch, hpre⟩ := hmem
        have hcp : checkStep cfg ag
            = if r.effect = .deny
              then { allowed := false,
                     reason := some (agentDenyReason ag r.id) }
              else { allowed := true } := by
          unfold checkStep
          rw [hf]
        cases hd : r.effect with
        | deny =>
            have hcp' : checkStep cfg ag
                = { allowed := false,
                    reason := some (agentDenyReason ag r.id) } := by
              rw [hcp, hd, if_pos rfl]
            rw [hcp']
            simp only [true_iff]
            exact ⟨l1, r, l2, heq, hmatch, hd, hpre, rfl⟩
        | allow =>
            have hcp' : checkStep cfg ag = { allowed := true } := by
              rw [hcp, hd, if_neg (by intro h; cases h)]
            rw [hcp']
            simp only [Bool.true_eq_false, false_iff]
            rintro ⟨l1', r', l2', heq', hmatch', hd', hpre', _⟩
            have hfind : cfg.rules.find? (fun r =>
                decide (r.appliesTo = Scope.agent)
                  && r.target.matchesName ag) = some r' :=
              (find?_decomp _ _ _).mpr ⟨l1', l2', heq', hmatch', hpre'⟩
            rw [hf] at hfind
            injection hfind with hfind
            rw [← hfind] at hd'
            rw [hd] at hd'
            cases hd'

/-! ## Clock dependence of `checkAction` -/

/-- A rule without time restrictions decides identically under any two
clock readings. -/
theorem ruleEarly_no_time (rm : String → String → Bool) (clk1 clk2 : Clock)
    (r : PolicyRule) (a : PAction) (h : condTimeRestrictions r = none) :
    ruleEarlyDecision rm clk1 r a = ruleEarlyDecision rm clk2 r a := by
  unfold ruleEarlyDecision timeDecision
  rw [h]

/-- The `checkAction` rule loop is clock-independent when no rule in it
carries time restrictions. -/
theorem checkRules_clock (rm : String → String → Bool) (clk1 clk2 : Clock) :
    ∀ (rules : List PolicyRule) (a : PAction) (req : Bool),
      (∀ r ∈ rules, condTimeRestrictions r = none) →
      checkRules rm clk1 rules a req = checkRules rm clk2 rules a req := by
  intro rules
  induction rules with
  | nil => intro a req _; rfl
  | cons r rest ih =>
      intro a req h
      have he := ruleEarly_no_time rm clk1 clk2 r a
        (h r (List.mem_cons_self r rest))
      rw [checkRules, checkRules, he]
      cases hd : ruleEarlyDecision rm clk2 r a with
      | some d => rfl
      | none =>
          exact ih a _ (fun r' hr' => h r' (List.mem_cons_of_mem r hr'))

/-- C9 (counterexample): with a time-restricted action rule
(10:00–11:00), two evaluations with identical rule set, subject and
context but different clock instants return different outcomes — the
evaluation is not a function of rules, subject and context alone. -/
theorem C9_counterexample :
    checkAction rmFalse cfgOfficeHours ⟨10, 1⟩ actRun
      = { allowed := true, requiresApproval := some true }
    ∧ checkAction rmFalse cfgOfficeHours ⟨11, 1⟩ actRun
      = { allowed := false, reason := some (timeHourReason 10 11) }
    ∧ checkAction rmFalse cfgOfficeHours ⟨10, 1⟩ actRun
      ≠ checkAction rmFalse cfgOfficeHours ⟨11, 1⟩ actRun :=
  ⟨by decide, by decide, by decide⟩

/-- C9 (amended): `checkPipeline`/`checkStep` never read the clock, and
`checkAction` is a pure function of rules, subject, context *and the
clock reading*: whenever no matching action rule carries time
restrictions its outcome is independent of the clock; with
time-restricted rules two evaluations at different instants may differ
(see the counterexample). -/
theorem C9_no_time_rules_deterministic (rm : String → String → Bool)
    (cfg : PolicyConfig) (a : PAction) (clk1 clk2 : Clock)
    (h : ∀ r ∈ cfg.rules, r.appliesTo = Scope.action →
      r.target.matchesName a.type = true → condTimeRestrictions r = none) :
    checkAction rm cfg clk1 a = checkAction rm cfg clk2 a := by
  unfold checkAction
  apply checkRules_clock
  intro r hr
  obtain ⟨hmem, hpred⟩ := List.mem_filter.mp hr
  simp only [Bool.and_eq_true, decide_eq_true_eq] at hpred
  exact h r hmem hpred.1 hpred.2

/-- Witness for `C9_no_time_rules_deterministic`: `cfgC1` has no
time-restricted rules, so two evaluations at far-apart clock readings
agree. -/
theorem C9_no_time_rules_deterministic_witness :
    checkAction rmFalse cfgC1 clk0 actTwoTargets
      = checkAction rmFalse cfgC1 ⟨23, 6⟩ actTwoTargets :=
  C9_no_time_rules_deterministic rmFalse cfgC1 actTwoTargets clk0 ⟨23, 6⟩
    (by decide)

/-! ## Lemmas about the pipeline-level gates of `runPipeline` -/

/-- `runApproval` errors exactly when the approval gate rejects. -/
theorem runApproval_error_iff (env : EngineEnv) (p : EPipelineDef)
    (cb : List (String × JVal)) :
    (∃ e, runApproval env p cb = .error e) ↔ pipelineApprovalRejects env p := by
  unfold runApproval pipelineApprovalRejects
  cases hr : p.requiresApproval with
  | false => simp [runBody]
  | true =>
      cases hau : env.autoApprove with
      | true => simp [runBody, hau]
      | false =>
          cases hap : env.approve (.pipeline p.name) with
          | true => simp [runBody, hau, hap]
          | false => simp [hau, hap]

/-- With the approval gate passing, `runApproval` reduces to the loop
body. -/
theorem runApproval_pass (env : EngineEnv) (p : EPipelineDef)
    (cb : List (String × JVal)) (h2 : ¬ pipelineApprovalRejects env p) :
    runApproval env p cb = runBody env p cb := by
  unfold runApproval
  cases hr : p.requiresApproval with
  | false => simp
  | true =>
      cases hau : env.autoApprove with
      | true => simp [hau]
      | false =>
          cases hap : env.approve (.pipeline p.name) with
          | true => simp [hau, hap]
          | false => exact absurd ⟨hr, hau, hap⟩ h2

/-- `runFound` errors exactly when the policy gate denies or the
approval gate rejects. -/
theorem runFound_error_iff (env : EngineEnv) (p : EPipelineDef)
    (ctx : List (String × JVal)) :
    (∃ e, runFound env p ctx = .error e)
      ↔ pipelinePolicyDenies env p ∨ pipelineApprovalRejects env p := by
  unfold runFound
  cases hpol : env.policy with
  | none =>
      rw [runApproval_error_iff]
      unfold pipelinePolicyDenies
      simp [hpol]
  | some cfg =>
      cases ha : (checkPipeline cfg p.id).allowed with
      | true =>
          simp only [ha, if_true]
          rw [runApproval_error_iff]
          unfold pipelinePolicyDenies
          simp [hpol, ha]
      | false =>
          simp only [ha, Bool.false_eq_true, if_false]
          unfold pipelinePolicyDenies
          simp [hpol, ha]

/-- With both pipeline-level gates passing, `runFound` reduces to the
loop body over the merged context. -/
theorem runFound_pass (env : EngineEnv) (p : EPipelineDef)
    (ctx : List (String × JVal)) (h1 : ¬ pipelinePolicyDenies env p)
    (h2 : ¬ pipelineApprovalRejects env p) :
    runFound env p ctx = runBody env p (mergeAssoc p.defaultContext ctx) := by
  unfold runFound
  cases hpol : env.policy with
  | none => exact runApproval_pass env p _ h2
  | some cfg =>
      cases ha : (checkPipeline cfg p.id).allowed with
      | true =>
          simp only [ha, if_true]
          exact runApproval_pass env p _ h2
      | false => exact absurd ⟨cfg, hpol, ha⟩ h1

/-- C4 (counterexample): the claim says a pipeline-level policy denial
is captured in the returned result rather than thrown; on the code,
with `p` registered (so this is not a lookup error) and the policy
denying `p`, `runPipeline` throws. -/
theorem C4_counterexample :
    (lookupReg regOne "p").isSome = true
    ∧ runPipeline envDenyP regOne "p" []
        = .error ("Pipeline blocked by policy: "
            ++ pipelineDenyReason "p" "no-p") :=
  ⟨by decide, by decide⟩

/-- C4 (amended): `runPipeline` throws exactly for an unknown pipeline
id, a pipeline-level policy denial, or a rejected pipeline-level
approval; every failure arising once the step loop has begun is
captured into the returned result instead. -/
theorem C4_error_escape_characterization (env : EngineEnv)
    (reg : List (String × EPipelineDef)) (pid : String)
    (ctx : List (String × JVal)) :
    (∃ e, runPipeline env reg pid ctx = .error e)
      ↔ lookupReg reg pid = none
        ∨ ∃ p, lookupReg reg pid = some p
            ∧ (pipelinePolicyDenies env p ∨ pipelineApprovalRejects env p) := by
  cases hl : lookupReg reg pid with
  | none =>
      simp only [runPipeline, hl]
      constructor
      · intro _; exact Or.inl trivial
      · intro _; exact ⟨_, rfl⟩
  | some p =>
      simp only [runPipeline, hl]
      rw [runFound_error_iff]
      constructor
      · intro h; exact Or.inr ⟨p, rfl, h⟩
      · rintro (h | ⟨p', hp', h⟩)
        · cases h
        · injection hp' with hp'
          rw [hp']
          exact h

/-! ## The two failure paths of the step loop -/

/-- C5 (counterexample): for the same step (`continueOnError = true`)
and an engine with an observer attached, a thrown step and a
returned-failure step are *not* handled identically: the returned
failure stores the step's output in the context map and fires the
observer, the thrown one does neither. -/
theorem C5_counterexample :
    runPipeline envThrow regCont "p" [] = .ok resThrow
    ∧ runPipeline envRet regCont "p" [] = .ok resRet
    ∧ envThrow.hasOnStepComplete = true
    ∧ resThrow.calls = [] ∧ resThrow.stepResultsCtx = []
    ∧ resRet.calls = ["s1"] ∧ resRet.stepResultsCtx = [("s1", JVal.null)] :=
  ⟨by decide, by decide, by decide, by decide, by decide, by decide, by decide⟩

/-- C5 (amended): a step that throws is caught and converted into a
`StepResult` carrying the step id and name, the thrown message as
error, success false, null data, duration 0 and a timestamp, and the
`continueOnError` handling is the same as for a returned failure — but
unlike the returned-failure path the catch path stores nothing in the
context's step-output map, collects no actions, and does not invoke
the per-step-completion observer. -/
theorem C5_throw_conversion (env : EngineEnv) (step : EStep)
    (rest : List EStep) (results : List EStepResult)
    (ctxMap : List (String × JVal)) (acts : List EAction)
    (calls : List String) (m : String)
    (herr : executeStep env step results = .error m) :
    (step.continueOnError = false →
      runLoop env (step :: rest) results ctxMap acts calls
        = { results := results ++ [catchStepResult env step m],
            ctxMap := ctxMap, actions := acts, calls := calls,
            success := false, error := some m })
    ∧ (step.continueOnError = true →
      runLoop env (step :: rest) results ctxMap acts calls
        = runLoop env rest (results ++ [catchStepResult env step m])
            ctxMap acts calls) := by
  constructor <;> intro hc <;> rw [runLoop, herr] <;> simp [hc]

/-- Witness for `C5_throw_conversion` under `envThrow`, whose single
step continues on error. -/
theorem C5_throw_conversion_witness :
    runLoop envThrow [stepCont] [] [] [] []
      = runLoop envThrow [] [catchStepResult envThrow stepCont "boom"]
          [] [] [] :=
  (C5_throw_conversion envThrow stepCont [] [] [] [] [] "boom"
    (by decide)).2 (by decide)

/-! ## Early stop of the step loop -/

/-- A successfully returned step result carries the step's id and
name. -/
theorem executeStep_ok_ids (env : EngineEnv) (step : EStep)
    (prev : List EStepResult) (sr : EStepResult)
    (h : executeStep env step prev = .ok sr) :
    sr.stepId = step.id ∧ sr.stepName = step.name := by
  simp only [executeStep] at h
  split at h
  · cases h
  · split at h
    · split at h
      · split at h
        · cases h
        · split at h
          · cases h
          · injection h with h
            rw [← h]
            exact ⟨rfl, rfl⟩
      · cases h
    · split at h
      · cases h
      · split at h
        · cases h
        · injection h with h
          rw [← h]
          exact ⟨rfl, rfl⟩

/-- A first step whose outcome does not stop the loop — a returned
success, or a returned failure or throw with `continueOnError` — makes
the loop continue over the remaining steps with the (possibly
converted) step result appended. -/
theorem runLoop_cont_one (env : EngineEnv) (A : EStep) (rest : List EStep)
    (results : List EStepResult) (c : List (String × JVal))
    (a : List EAction) (t : List String) (ra : EStepResult)
    (hA : (executeStep env A results = .ok ra
            ∧ (ra.success = true ∨ A.continueOnError = true))
          ∨ (∃ m, executeStep env A results = .error m
              ∧ ra = catchStepResult env A m ∧ A.continueOnError = true)) :
    ra.stepId = A.id
    ∧ ∃ c' a' t', runLoop env (A :: rest) results c a t
        = runLoop env rest (results ++ [ra]) c' a' t' := by
  rcases hA with ⟨hA, hcont⟩ | ⟨m, hA, hra, hcont⟩
  · refine ⟨(executeStep_ok_ids env A results ra hA).1,
      setKey c A.id ra.data, a ++ ra.actions.getD [],
      if env.hasOnStepComplete then t ++ [A.id] else t, ?_⟩
    rw [runLoop, hA]
    rcases hcont with hs | hc
    · simp [hs]
    · simp [hc]
  · subst hra
    refine ⟨rfl, c, a, t, ?_⟩
    rw [runLoop, hA]
    simp [hcont]

/-- A step that fails — by throwing or by a returned failed result —
while its `continueOnError` flag is false stops the loop: the converted
result is appended, overall success becomes false, and the terminal
error is that result's error. -/
theorem runLoop_break_one (env : EngineEnv) (B : EStep) (rest : List EStep)
    (results : List EStepResult) (c : List (String × JVal))
    (a : List EAction) (t : List String)
    (hBc : B.continueOnError = false)
    (hB : (∃ m, executeStep env B results = .error m)
          ∨ (∃ rb, executeStep env B results = .ok rb
              ∧ rb.success = false)) :
    ∃ srB c' a' t', runLoop env (B :: rest) results c a t
        = { results := results ++ [srB], ctxMap := c', actions := a',
            calls := t', success := false, error := srB.error }
      ∧ srB.stepId = B.id ∧ srB.success = false := by
  rcases hB with ⟨m, hB⟩ | ⟨rb, hB, hbs⟩
  · refine ⟨catchStepResult env B m, c, a, t, ?_, rfl, rfl⟩
    rw [runLoop, hB]
    simp [hBc, catchStepResult]
  · refine ⟨rb, setKey c B.id rb.data, a ++ rb.actions.getD [],
      if env.hasOnStepComplete then t ++ [B.id] else t, ?_,
      (executeStep_ok_ids env B results rb hB).1, hbs⟩
    rw [runLoop, hB]
    simp [hbs, hBc]

/-- C6: for a registered pipeline [A, B, C] passing the pipeline-level
gates, where A's outcome lets the run proceed (its converted result is
`ra`) and B fails — by throwing or by returning a failed result —
while `B.continueOnError` is false, the run returns exactly the two
step results of A and B in order, C never appears, overall success is
false, and the terminal error is B's step-result error. -/
theorem C6_stop_on_failure (env : EngineEnv)
    (reg : List (String × EPipelineDef)) (pid : String)
    (ctx : List (String × JVal)) (p : EPipelineDef) (A B C : EStep)
    (ra : EStepResult)
    (hl : lookupReg reg pid = some p)
    (hsteps : p.steps = [A, B, C])
    (h1 : ¬ pipelinePolicyDenies env p)
    (h2 : ¬ pipelineApprovalRejects env p)
    (hA : (executeStep env A [] = .ok ra
            ∧ (ra.success = true ∨ A.continueOnError = true))
          ∨ (∃ m, executeStep env A [] = .error m
              ∧ ra = catchStepResult env A m ∧ A.continueOnError = true))
    (hBc : B.continueOnError = false)
    (hB : (∃ m, executeStep env B [ra] = .error m)
          ∨ (∃ rb, executeStep env B [ra] = .ok rb ∧ rb.success = false)) :
    ∃ r srB, runPipeline env reg pid ctx = .ok r
      ∧ r.steps = [ra, srB] ∧ ra.stepId = A.id ∧ srB.stepId = B.id
      ∧ r.success = false ∧ r.error = srB.error := by
  have hrun : runPipeline env reg pid ctx
      = runBody env p (mergeAssoc p.defaultContext ctx) := by
    simp only [runPipeline, hl]
    exact runFound_pass env p ctx h1 h2
  obtain ⟨hida, c1, a1, t1, hcont⟩ :=
    runLoop_cont_one env A [B, C] [] [] [] [] ra hA
  rw [List.nil_append] at hcont
  obtain ⟨srB, c2, a2, t2, hbreak, hidb, hsb⟩ :=
    runLoop_break_one env B [C] [ra] c1 a1 t1 hBc hB
  refine ⟨{ pipelineId := p.id, pipelineName := p.name, success := false,
            steps := [ra, srB], actions := a2, error := srB.error,
            contextBase := mergeAssoc p.defaultContext ctx,
            stepResultsCtx := c2, calls := t2 }, srB, ?_, rfl, hida, hidb,
          rfl, rfl⟩
  rw [hrun]
  simp only [runBody]
  rw [hsteps, hcont, hbreak]
  rfl

/-- Witness for `C6_stop_on_failure`: under `envAokBthrows`, step `a`
succeeds and step `b` throws with `continueOnError` false. -/
theorem C6_stop_on_failure_witness :
    ∃ r srB, runPipeline envAokBthrows regABC "p" [] = .ok r
      ∧ r.steps = [raOk, srB] ∧ raOk.stepId = stepA.id
      ∧ srB.stepId = stepB.id ∧ r.success = false
      ∧ r.error = srB.error :=
  C6_stop_on_failure envAokBthrows regABC "p" [] pipeABC stepA stepB stepCc
    raOk (by decide) (by decide)
    (by rintro ⟨cfg, hc, -⟩; simp [envAokBthrows] at hc)
    (by rintro ⟨hreq, -, -⟩; simp [pipeABC] at hreq)
    (Or.inl ⟨by decide, Or.inl (by decide)⟩) (by decide)
    (Or.inl ⟨"bfail", by decide⟩)

/-! ## Global accounting of the step loop -/

/-- The step loop only appends to the results array. -/
theorem runLoop_extend (env : EngineEnv) :
    ∀ (steps : List EStep) (results : List EStepResult)
      (ctxMap : List (String × JVal)) (acts : List EAction)
      (calls : List String),
      ∃ d, (runLoop env steps results ctxMap acts calls).results
        = results ++ d := by
  intro steps
  induction steps with
  | nil => intro results _ _ _; exact ⟨[], by simp [runLoop]⟩
  | cons step rest ih =>
      intro results ctxMap acts calls
      cases hE : executeStep env step results with
      | ok sr =>
          cases hb : (!sr.success && !step.continueOnError) with
          | true => exact ⟨[sr], by rw [runLoop, hE]; simp [hb]⟩
          | false =>
              obtain ⟨d, hd⟩ := ih (results ++ [sr])
                (setKey ctxMap step.id sr.data) (acts ++ sr.actions.getD [])
                (if env.hasOnStepComplete then calls ++ [step.id] else calls)
              refine ⟨sr :: d, ?_⟩
              rw [runLoop, hE]
              simp only [hb, Bool.false_eq_true, if_false]
              rw [hd, List.append_assoc, List.singleton_append]
      | error m =>
          cases hc : step.continueOnError with
          | false =>
              exact ⟨[catchStepResult env step m],
                by rw [runLoop, hE]; simp [hc]⟩
          | true =>
              obtain ⟨d, hd⟩ := ih (results ++ [catchStepResult env step m])
                ctxMap acts calls
              refine ⟨catchStepResult env step m :: d, ?_⟩
              rw [runLoop, hE]
              simp only [hc, Bool.not_true, Bool.false_eq_true, if_false]
              rw [hd, List.append_assoc, List.singleton_append]

/-- If the loop executed every remaining step and each failed result
belongs to a step that continues on error, the loop reports success
with no terminal error. -/
theorem runLoop_success_of (env : EngineEnv) :
    ∀ (steps : List EStep) (results : List EStepResult)
      (ctxMap : List (String × JVal)) (acts : List EAction)
      (calls : List String),
      (runLoop env steps results ctxMap acts calls).results.length
        = results.length + steps.length →
      (∀ pr ∈ steps.zip
          ((runLoop env steps results ctxMap acts calls).results.drop
            results.length),
        pr.2.success = false → pr.1.continueOnError = true) →
      (runLoop env steps results ctxMap acts calls).success = true
        ∧ (runLoop env steps results ctxMap acts calls).error = none := by
  intro steps
  induction steps with
  | nil => intro results _ _ _ _ _; exact ⟨rfl, rfl⟩
  | cons step rest ih =>
      intro results ctxMap acts calls hlen hzip
      cases hE : executeStep env step results with
      | ok sr =>
          cases hb : (!sr.success && !step.continueOnError) with
          | true =>
              have hO : runLoop env (step :: rest) results ctxMap acts calls
                  = { results := results ++ [sr],
                      ctxMap := setKey ctxMap step.id sr.data,
                      actions := acts ++ sr.actions.getD [],
                      calls := if env.hasOnStepComplete
                               then calls ++ [step.id] else calls,
                      success := false, error := sr.error } := by
                rw [runLoop, hE]
                simp [hb]
              rw [hO] at hzip
              simp only [Bool.and_eq_true, Bool.not_eq_true'] at hb
              have hmem : (step, sr) ∈ (step :: rest).zip
                  (((results ++ [sr] : List EStepResult)).drop results.length) := by
                rw [List.drop_left results [sr], List.zip_cons_cons]
                exact List.mem_cons_self _ _
              have hcont := hzip (step, sr) hmem hb.1
              rw [hb.2] at hcont
              cases hcont
          | false =>
              have hO : runLoop env (step :: rest) results ctxMap acts calls
                  = runLoop env rest (results ++ [sr])
                      (setKey ctxMap step.id sr.data)
                      (acts ++ sr.actions.getD [])
                      (if env.hasOnStepComplete
                       then calls ++ [step.id] else calls) := by
                rw [runLoop, hE]
                simp only [hb, Bool.false_eq_true, if_false]
              rw [hO] at hlen hzip ⊢
              obtain ⟨d, hd⟩ := runLoop_extend env rest (results ++ [sr])
                (setKey ctxMap step.id sr.data) (acts ++ sr.actions.getD [])
                (if env.hasOnStepComplete then calls ++ [step.id] else calls)
              have hdrop1 : (runLoop env rest (results ++ [sr])
                  (setKey ctxMap step.id sr.data) (acts ++ sr.actions.getD [])
                  (if env.hasOnStepComplete then calls ++ [step.id]
                   else calls)).results.drop results.length = sr :: d := by
                rw [hd, List.append_assoc, List.drop_left,
                  List.singleton_append]
              have hdrop2 : (runLoop env rest (results ++ [sr])
                  (setKey ctxMap step.id sr.data) (acts ++ sr.actions.getD [])
                  (if env.hasOnStepComplete then calls ++ [step.id]
                   else calls)).results.drop (results ++ [sr]).length = d := by
                rw [hd, List.drop_left]
              apply ih (results ++ [sr])
              · rw [hd] at hlen ⊢
                simp only [List.length_append, List.length_cons,
                  List.length_nil, List.length_singleton] at hlen ⊢
                omega
              · rw [hdrop2]
                intro pr hpr
                apply hzip pr
                rw [hdrop1, List.zip_cons_cons]
                exact List.mem_cons_of_mem _ hpr
      | error m =>
          cases hc : step.continueOnError with
          | false =>
              have hO : runLoop env (step :: rest) results ctxMap acts calls
                  = { results := results ++ [catchStepResult env step m],
                      ctxMap := ctxMap, actions := acts, calls := calls,
                      success := false, error := some m } := by
                rw [runLoop, hE]
                simp [hc]
              rw [hO] at hzip
              have hmem : (step, catchStepResult env step m)
                  ∈ (step :: rest).zip
                    (((results ++ [catchStepResult env step m] :
                      List EStepResult)).drop results.length) := by
                rw [List.drop_left results [catchStepResult env step m],
                  List.zip_cons_cons]
                exact List.mem_cons_self _ _
              have hcont := hzip _ hmem rfl
              rw [hc] at hcont
              cases hcont
          | true =>
              have hO : runLoop env (step :: rest) results ctxMap acts calls
                  = runLoop env rest
                      (results ++ [catchStepResult env step m])
                      ctxMap acts calls := by
                rw [runLoop, hE]
                simp only [hc, Bool.not_true, Bool.false_eq_true, if_false]
              rw [hO] at hlen hzip ⊢
              obtain ⟨d, hd⟩ := runLoop_extend env rest
                (results ++ [catchStepResult env step m]) ctxMap acts calls
              have hdrop1 : (runLoop env rest
                  (results ++ [catchStepResult env step m]) ctxMap acts
                  calls).results.drop results.length
                  = catchStepResult env step m :: d := by
                rw [hd, List.append_assoc, List.drop_left,
                  List.singleton_append]
              have hdrop2 : (runLoop env rest
                  (results ++ [catchStepResult env step m]) ctxMap acts
                  calls).results.drop
                    (results ++ [catchStepResult env step m]).length = d := by
                rw [hd, List.drop_left]
              apply ih (results ++ [catchStepResult env step m])
              · rw [hd] at hlen ⊢
                simp only [List.length_append, List.length_cons,
                  List.length_nil, List.length_singleton] at hlen ⊢
                omega
              · rw [hdrop2]
                intro pr hpr
                apply hzip pr
                rw [hdrop1, List.zip_cons_cons]
                exact List.mem_cons_of_mem _ hpr

/-- If the loop reports failure, some executed step failed while its
`continueOnError` flag was false. -/
theorem runLoop_failure_pair (env : EngineEnv) :
    ∀ (steps : List EStep) (results : List EStepResult)
      (ctxMap : List (String × JVal)) (acts : List EAction)
      (calls : List String),
      (runLoop env steps results ctxMap acts calls).success = false →
      ∃ pr ∈ steps.zip
          ((runLoop env steps results ctxMap acts calls).results.drop
            results.length),
        pr.2.success = false ∧ pr.1.continueOnError = false := by
  intro steps
  induction steps with
  | nil => intro results _ _ _ h; cases h
  | cons step rest ih =>
      intro results ctxMap acts calls hfail
      cases hE : executeStep env step results with
      | ok sr =>
          cases hb : (!sr.success && !step.continueOnError) with
          | true =>
              have hO : runLoop env (step :: rest) results ctxMap acts calls
                  = { results := results ++ [sr],
                      ctxMap := setKey ctxMap step.id sr.data,
                      actions := acts ++ sr.actions.getD [],
                      calls := if env.hasOnStepComplete
                               then calls ++ [step.id] else calls,
                      success := false, error := sr.error } := by
                rw [runLoop, hE]
                simp [hb]
              simp only [Bool.and_eq_true, Bool.not_eq_true'] at hb
              refine ⟨(step, sr), ?_, hb.1, hb.2⟩
              rw [hO, List.drop_left results [sr], List.zip_cons_cons]
              exact List.mem_cons_self _ _
          | false =>
              have hO : runLoop env (step :: rest) results ctxMap acts calls
                  = runLoop env rest (results ++ [sr])
                      (setKey ctxMap step.id sr.data)
                      (acts ++ sr.actions.getD [])
                      (if env.hasOnStepComplete
                       then calls ++ [step.id] else calls) := by
                rw [runLoop, hE]
                simp only [hb, Bool.false_eq_true, if_false]
              rw [hO] at hfail ⊢
              obtain ⟨d, hd⟩ := runLoop_extend env rest (results ++ [sr])
                (setKey ctxMap step.id sr.data) (acts ++ sr.actions.getD [])
                (if env.hasOnStepComplete then calls ++ [step.id] else calls)
              obtain ⟨pr, hpr, hps, hpc⟩ := ih (results ++ [sr])
                (setKey ctxMap step.id sr.data) (acts ++ sr.actions.getD [])
                (if env.hasOnStepComplete then calls ++ [step.id] else calls)
                hfail
              refine ⟨pr, ?_, hps, hpc⟩
              rw [hd, List.append_assoc, List.drop_left,
                List.singleton_append, List.zip_cons_cons]
              rw [hd, List.drop_left] at hpr
              exact List.mem_cons_of_mem _ hpr
      | error m =>
          cases hc : step.continueOnError with
          | false =>
              have hO : runLoop env (step :: rest) results ctxMap acts calls
                  = { results := results ++ [catchStepResult env step m],
                      ctxMap := ctxMap, actions := acts, calls := calls,
                      success := false, error := some m } := by
                rw [runLoop, hE]
                simp [hc]
              refine ⟨(step, catchStepResult env step m), ?_, rfl, hc⟩
              rw [hO, List.drop_left results [catchStepResult env step m],
                List.zip_cons_cons]
              exact List.mem_cons_self _ _
          | true =>
              have hO : runLoop env (step :: rest) results ctxMap acts calls
                  = runLoop env rest
                      (results ++ [catchStepResult env step m])
                      ctxMap acts calls := by
                rw [runLoop, hE]
                simp only [hc, Bool.not_true, Bool.false_eq_true, if_false]
              rw [hO] at hfail ⊢
              obtain ⟨d, hd⟩ := runLoop_extend env rest
                (results ++ [catchStepResult env step m]) ctxMap acts calls
              obtain ⟨pr, hpr, hps, hpc⟩ := ih
                (results ++ [catchStepResult env step m]) ctxMap acts calls
                hfail
              refine ⟨pr, ?_, hps, hpc⟩
              rw [hd, List.append_assoc, List.drop_left,
                List.singleton_append, List.zip_cons_cons]
              rw [hd, List.drop_left] at hpr
              exact List.mem_cons_of_mem _ hpr

/-- A successful `runApproval` came from the loop body. -/
theorem runApproval_ok (env : EngineEnv) (p : EPipelineDef)
    (cb : List (String × JVal)) (r : EPipelineResult)
    (h : runApproval env p cb = .ok r) : runBody env p cb = .ok r := by
  unfold runApproval at h
  split at h
  · split at h
    · exact h
    · cases h
  · exact h

/-- A successful `runFound` came from the loop body over the merged
context. -/
theorem runFound_ok (env : EngineEnv) (p : EPipelineDef)
    (ctx : List (String × JVal)) (r : EPipelineResult)
    (h : runFound env p ctx = .ok r) :
    runBody env p (mergeAssoc p.defaultContext ctx) = .ok r := by
  unfold runFound at h
  split at h
  · simp only [] at h
    split at h
    · exact runApproval_ok _ _ _ _ h
    · cases h
  · exact runApproval_ok _ _ _ _ h

/-- The fields of a successful run are the loop's exit state. -/
theorem runBody_shape (env : EngineEnv) (p : EPipelineDef)
    (cb : List (String × JVal)) (r : EPipelineResult)
    (h : runBody env p cb = .ok r) :
    r.steps = (runLoop env p.steps [] [] [] []).results
    ∧ r.success = (runLoop env p.steps [] [] [] []).success
    ∧ r.error = (runLoop env p.steps [] [] [] []).error := by
  simp only [runBody] at h
  injection h with h
  rw [← h]
  exact ⟨rfl, rfl, rfl⟩

/-- C7: a run that returned a result has overall success with a null
terminal error whenever every step of the pipeline was executed and
each step whose result failed continues on error; conversely overall
failure only arises from an executed step that failed while its
`continueOnError` flag was false. -/
theorem C7_success_semantics (env : EngineEnv)
    (reg : List (String × EPipelineDef)) (pid : String)
    (ctx : List (String × JVal)) (p : EPipelineDef) (r : EPipelineResult)
    (hl : lookupReg reg pid = some p)
    (hr : runPipeline env reg pid ctx = .ok r) :
    (r.steps.length = p.steps.length →
      (∀ pr ∈ p.steps.zip r.steps, pr.2.success = false →
        pr.1.continueOnError = true) →
      r.success = true ∧ r.error = none)
    ∧ (r.success = false →
      ∃ pr ∈ p.steps.zip r.steps, pr.2.success = false
        ∧ pr.1.continueOnError = false) := by
  simp only [runPipeline, hl] at hr
  obtain ⟨hs, hsu, herr⟩ := runBody_shape env p _ r (runFound_ok env p ctx r hr)
  constructor
  · intro hlen hzip
    rw [hsu, herr]
    apply runLoop_success_of env p.steps [] [] [] []
    · rw [← hs, List.length_nil, Nat.zero_add]
      exact hlen
    · rw [List.length_nil, List.drop_zero, ← hs]
      exact hzip
  · intro hfail
    rw [hsu] at hfail
    obtain ⟨pr, hpr, h1, h2⟩ :=
      runLoop_failure_pair env p.steps [] [] [] [] hfail
    rw [List.length_nil, List.drop_zero, ← hs] at hpr
    exact ⟨pr, hpr, h1, h2⟩

/-- Witness for `C7_success_semantics`: under `envDfailEok` both steps
of `pipeDE` execute, the failing one continues on error, and the run
reports success with no terminal error. -/
theorem C7_success_semantics_witness :
    resDE.success = true ∧ resDE.error = none :=
  (C7_success_semantics envDfailEok regDE "p" [] pipeDE resDE
    (by decide) (by decide)).1 (by decide) (by decide)

/-! ## Validation at registration -/

/-- C10 (counterexample): `registerPipeline` accepts a pipeline whose
two steps share the id `a` — step-id uniqueness is not validated, so
the claimed registry invariant fails. -/
theorem C10_counterexample :
    registerPipeline [] dupRaw = .ok [("p", dupStored)]
    ∧ (dupStored.steps.map (fun s => s.id)) = ["a", "a"]
    ∧ ¬ (dupStored.steps.map (fun s => s.id)).Nodup :=
  ⟨by decide, by decide, by decide⟩

/-- A step list passing `validatePipelineDefinition` has every required
field present in every step. -/
theorem validateSteps_ok :
    ∀ (i : Nat) (steps : List EStep), validateSteps i steps = .ok () →
      ∀ s ∈ steps, stepFieldsPresent s := by
  intro i steps
  induction steps generalizing i with
  | nil => intro _ s hs; cases hs
  | cons a l ih =>
      intro h s hs
      rw [validateSteps] at h
      split at h
      · cases h
      · split at h
        · cases h
        · split at h
          · cases h
          · split at h
            · cases h
            · rcases List.mem_cons.mp hs with hsa | hsl
              · subst hsa
                refine ⟨?_, ?_, ?_, ?_⟩ <;>
                  · intro he
                    simp_all
              · exact ih (i + 1) h s hsl

/-- Every entry of the registry after a `Map.set` is an old entry or
the new one. -/
theorem mapSet_mem (reg : List (String × EPipelineDef)) (k : String)
    (v : EPipelineDef) :
    ∀ e ∈ mapSet reg k v, e ∈ reg ∨ e = (k, v) := by
  intro e he
  unfold mapSet at he
  split at he
  · obtain ⟨q, hq, hfq⟩ := List.mem_map.mp he
    by_cases hqk : q.1 == k
    · rw [if_pos hqk] at hfq
      exact Or.inr hfq.symm
    · rw [if_neg hqk] at hfq
      exact Or.inl (hfq ▸ hq)
  · rcases List.mem_append.mp he with h | h
    · exact Or.inl h
    · rcases List.mem_singleton.mp h with h
      exact Or.inr h

/-- C10 (amended): registration validates only *presence* — a pipeline
id, a steps array, and per step an id, an agent, a method and an input
source; step-id uniqueness is not checked (see the counterexample), so
the invariant `registerPipeline` actually maintains on the registry is
that every stored step has its required fields present. -/
theorem C10_presence_invariant (reg reg' : List (String × EPipelineDef))
    (d : RawPipelineDef)
    (hreg : registerPipeline reg d = .ok reg')
    (hinv : ∀ e ∈ reg, ∀ s ∈ e.2.steps, stepFieldsPresent s) :
    ∀ e ∈ reg', ∀ s ∈ e.2.steps, stepFieldsPresent s := by
  unfold registerPipeline at hreg
  split at hreg
  · cases hreg
  · split at hreg
    · cases hreg
    · split at hreg
      · cases hreg
      · rename_i hid xopt steps hsome xval u hval
        injection hreg with hreg
        intro e he s hs
        rw [← hreg] at he
        rcases mapSet_mem reg d.id _ e he with h | h
        · exact hinv e h s hs
        · rw [h] at hs
          exact validateSteps_ok 0 steps hval s hs

/-- Witness for `C10_presence_invariant`: registering `okRaw` into an
empty registry yields a registry whose only step has all fields
present. -/
theorem C10_presence_invariant_witness : stepFieldsPresent stepA :=
  C10_presence_invariant [] [("q", okStored)] okRaw (by decide)
    (by intro e he; cases he) ("q", okStored) (by simp) stepA
    (by simp [okStored])

end SchemaIde
